import Mathlib

/-!
Verification of the aero-curves point-set geometry engine.

JS numbers are embedded as rationals (ℚ): all the arithmetic the claims
exercise is exact there, `Number.isFinite` holds for every value, and the
only falsy numeric value is `0`.  `Math.round` is rounding half toward +∞.
Point ids are naturals; the module-level id generator is embedded by
passing the next fresh id and minting `nextId`, `nextId+1`, … in the order
the source calls `makeId()`.  A JS `Set` of ids is embedded as a list with
membership lookup; `Array.from` on it returns the same elements.
-/

namespace AeroCurves

/-- JS `Math.round`: nearest integer, ties toward positive infinity. -/
def jsRound (q : ℚ) : ℤ := ⌊q + 1/2⌋

/-- A control point of a plot (src/state/reducer.ts `PlotState["points"]`). -/
structure Point where
  id : ℕ
  x : ℚ
  y : ℚ
deriving DecidableEq, Repr

instance : Inhabited Point := ⟨⟨0, 0, 0⟩⟩

/-- A pasted plain coordinate pair (geometry.ts `PlainPoint`). -/
structure PlainPoint where
  x : ℚ
  y : ℚ
deriving DecidableEq, Repr

/-- src/utils/snapping.ts `snapValue`.  Over ℚ the JS guard `!precision`
holds exactly for `precision = 0`, and `Number.isFinite(precision)` is
always true, so the non-finite branch cannot fire in this embedding. -/
def snapValue (value : ℚ) (enabled : Bool) (precision : ℚ) : ℚ :=
  if !enabled then value
  else if precision = 0 then value
  else (jsRound (value / precision) : ℚ) * precision

/-- geometry.ts `clampValue`: `Math.min(domain[1], Math.max(domain[0], v))`. -/
def clampValue (v : ℚ) (domain : ℚ × ℚ) : ℚ := min domain.2 (max domain.1 v)

theorem clampValue_mem (v : ℚ) (d : ℚ × ℚ) (h : d.1 ≤ d.2) :
    d.1 ≤ clampValue v d ∧ clampValue v d ≤ d.2 :=
  ⟨le_min h (le_max_left _ _), min_le_left _ _⟩

theorem snapValue_false (v p : ℚ) : snapValue v false p = v := rfl

theorem snapValue_zero (v : ℚ) : snapValue v true 0 = v := by
  simp [snapValue]

theorem snapValue_pos (v p : ℚ) (hp : p ≠ 0) :
    snapValue v true p = (jsRound (v / p) : ℚ) * p := by
  simp [snapValue, hp]

/-- geometry.ts `filterRightOutsideSpan`: keep the points strictly right of the span. -/
def filterRightOutsideSpan (points : List Point) (spanEnd : ℚ) : List Point :=
  points.filter fun p => spanEnd < p.x

/-- geometry.ts `filterLeftOutsideSpan`: keep the points strictly left of the span. -/
def filterLeftOutsideSpan (points : List Point) (spanStart : ℚ) : List Point :=
  points.filter fun p => p.x < spanStart

/-- Indices of the points whose id is in the selection, in array order
(the indices the `findSelectionBounds` loop visits with a hit). -/
def selectedIndices (points : List Point) (selection : List ℕ) : List ℕ :=
  (points.enum.filter fun ip => selection.contains ip.2.id).map Prod.fst

/-- geometry.ts `findSelectionBounds`: first and last selected index, or
`none` in place of the `-1` sentinels when nothing is selected. -/
def findSelectionBounds (points : List Point) (selection : List ℕ) : Option (ℕ × ℕ) :=
  match selectedIndices points selection with
  | [] => none
  | i :: rest => some (i, rest.getLastD i)

/-- `Math.min(...l.map(p => p.x))` seeded with a first value. -/
def minXFold (l : List Point) (a : ℚ) : ℚ := l.foldl (fun b q => min b q.x) a

/-- `Math.max(...l.map(p => p.x))` seeded with a first value. -/
def maxXFold (l : List Point) (a : ℚ) : ℚ := l.foldl (fun b q => max b q.x) a

/-- geometry.ts `flipSelectionY` (the revision the spec targets): each
selected point's y becomes `snapValue(clampValue(-y, domainY), …)`, in
place, with no re-sort. -/
def flipSelectionY (points : List Point) (selection : List ℕ) (domainY : ℚ × ℚ)
    (snapEnabled : Bool) (snapPrecision : ℚ) : List Point :=
  points.map fun p =>
    if !(selection.contains p.id) then p
    else { p with y := snapValue (clampValue (-p.y) domainY) snapEnabled snapPrecision }

/-- geometry.ts `flipSelectionX`: mirror each selected point's x across the
selection's own [minX, maxX] span, in place, with no re-sort. -/
def flipSelectionX (points : List Point) (selection : List ℕ) (domainX : ℚ × ℚ)
    (snapEnabled : Bool) (snapPrecision : ℚ) : List Point :=
  match points.filter (fun p => selection.contains p.id) with
  | [] => points
  | s :: rest =>
    let minX := minXFold rest s.x
    let maxX := maxXFold rest s.x
    points.map fun p =>
      if !(selection.contains p.id) then p
      else { p with x := snapValue (clampValue (maxX - (p.x - minX)) domainX) snapEnabled snapPrecision }

/-- geometry.ts `trimToSelection`: with at least two selected points, keep
exactly the points whose x lies in the selection's [minX, maxX] window. -/
def trimToSelection (points : List Point) (selection : List ℕ) : List Point :=
  let selected := points.filter fun p => selection.contains p.id
  if selected.length < 2 then points
  else
    match selected with
    | [] => points
    | s :: rest =>
      let minX := minXFold rest s.x
      let maxX := maxXFold rest s.x
      points.filter fun p => decide (minX ≤ p.x) && decide (p.x ≤ maxX)

/-- geometry.ts `removePoint`: filter out the id, returning the input when
the id is absent. -/
def removePoint (points : List Point) (id : ℕ) : List Point :=
  let next := points.filter fun p => p.id != id
  if next.length = points.length then points else next

/-- Plot component constant: the smallest point count editing may leave. -/
def MIN_POINTS : ℕ := 2

/-- Core of the Plot component's `handleDoubleClickPoint`: the removal is
skipped entirely when the plot has `MIN_POINTS` or fewer points. -/
def handleDoubleClickPoint (points : List Point) (id : ℕ) : List Point :=
  if points.length ≤ MIN_POINTS then points else removePoint points id

/-- Core of the app's `handleDeleteSelection`: drop every selected point;
the only guard is an empty selection, there is no minimum-count check. -/
def handleDeleteSelection (points : List Point) (selection : List ℕ) : List Point :=
  if selection.isEmpty then points
  else points.filter fun p => !(selection.contains p.id)

/-- geometry.ts `MirrorDirection`. -/
inductive MirrorDirection
  | left
  | right
deriving DecidableEq, Repr

/-- The anchor index of a mirror: the last selected index for "right", the
first for "left". -/
def mirrorAnchorIdx (first last : ℕ) : MirrorDirection → ℕ
  | .right => last
  | .left => first

/-- The anchor point of a mirror. -/
def mirrorAnchor (points : List Point) (first last : ℕ) (d : MirrorDirection) : Point :=
  points.getD (mirrorAnchorIdx first last d) default

/-- Source index of the k-th point the mirror loop pushes: the loop runs
`i = last-1 … first` for "right" and `i = last … first+1` for "left". -/
def mirrorSrcIdx (first last : ℕ) (d : MirrorDirection) (k : ℕ) : ℕ :=
  match d with
  | .right => last - 1 - k
  | .left => last - k

/-- The list of reflected points the `mirrorSelection` loop builds; the
k-th pushed point reads source index `mirrorSrcIdx … k` and mints id
`nextId + k`, matching the loop's `makeId()` call order. -/
def mirroredOf (points : List Point) (first last nextId : ℕ) (d : MirrorDirection) :
    List Point :=
  (List.range (last - first)).map fun k =>
    let src := points.getD (mirrorSrcIdx first last d k) default
    let anchor := mirrorAnchor points first last d
    ⟨nextId + k, anchor.x + (anchor.x - src.x), src.y⟩

/-- geometry.ts `mirrorSelection`: reflect the index span [first, last]
across the anchor, splice the reflections next to the anchor and drop the
pre-existing points the reflected span now covers. -/
def mirrorSelection (points : List Point) (selection : List ℕ) (nextId : ℕ)
    (direction : MirrorDirection) : List Point × List ℕ :=
  match findSelectionBounds points selection with
  | none => (points, selection)
  | some (first, last) =>
    if last - first + 1 < 2 then (points, selection)
    else
      let anchor := mirrorAnchor points first last direction
      let width := (points.getD last default).x - (points.getD first default).x
      let mirrored := mirroredOf points first last nextId direction
      match direction with
      | .right =>
        let insertAt := last + 1
        let spanEnd := anchor.x + width
        let rightTail := filterRightOutsideSpan (points.drop insertAt) spanEnd
        (points.take insertAt ++ mirrored ++ rightTail, anchor.id :: mirrored.map Point.id)
      | .left =>
        let spanStart := anchor.x - width
        let leftHead := filterLeftOutsideSpan (points.take first) spanStart
        (leftHead ++ mirrored ++ points.drop first, anchor.id :: mirrored.map Point.id)

/-- geometry.ts `duplicateSelectionRight`: copy the index span shifted right
by its width, drop copies coinciding with the anchor, splice after the span
and drop pre-existing points inside the claimed span. -/
def duplicateSelectionRight (points : List Point) (selection : List ℕ) (nextId : ℕ) :
    List Point × List ℕ :=
  match findSelectionBounds points selection with
  | none => (points, selection)
  | some (first, last) =>
    let minX := (points.getD first default).x
    let maxX := (points.getD last default).x
    let anchor := points.getD last default
    let shift := maxX - minX
    let duplicated := ((points.drop first).take (last + 1 - first)).enum.map fun kp =>
      (⟨nextId + kp.1, kp.2.x + shift, kp.2.y⟩ : Point)
    let filtered := duplicated.filter fun p => !(decide (p.x = anchor.x) && decide (p.y = anchor.y))
    let insertAt := last + 1
    let spanEnd := maxX + shift
    let rightTail := filterRightOutsideSpan (points.drop insertAt) spanEnd
    (points.take insertAt ++ filtered ++ rightTail, filtered.map Point.id)

/-- geometry.ts `duplicateSelectionLeft`: the left-shifted counterpart of
`duplicateSelectionRight`. -/
def duplicateSelectionLeft (points : List Point) (selection : List ℕ) (nextId : ℕ) :
    List Point × List ℕ :=
  match findSelectionBounds points selection with
  | none => (points, selection)
  | some (first, last) =>
    let minX := (points.getD first default).x
    let maxX := (points.getD last default).x
    let anchor := points.getD first default
    let shift := maxX - minX
    let duplicated := ((points.drop first).take (last + 1 - first)).enum.map fun kp =>
      (⟨nextId + kp.1, kp.2.x - shift, kp.2.y⟩ : Point)
    let filtered := duplicated.filter fun p => !(decide (p.x = anchor.x) && decide (p.y = anchor.y))
    let spanStart := minX - shift
    let leftHead := filterLeftOutsideSpan (points.take first) spanStart
    (leftHead ++ filtered ++ points.drop first, filtered.map Point.id)

/-- `Math.min(...incoming.map(p => p.x))` over plain pairs. -/
def minXFoldP (l : List PlainPoint) (a : ℚ) : ℚ := l.foldl (fun b q => min b q.x) a

/-- `Math.max(...incoming.map(p => p.x))` over plain pairs. -/
def maxXFoldP (l : List PlainPoint) (a : ℚ) : ℚ := l.foldl (fun b q => max b q.x) a

/-- geometry.ts `replaceSelectionWithPoints`: shift the incoming points so
their min x sits at the first selected point's x, clamp to both domains,
give fresh ids, and replace every existing point inside the pasted span. -/
def replaceSelectionWithPoints (points : List Point) (selection : List ℕ)
    (incoming : List PlainPoint) (domainX domainY : ℚ × ℚ) (nextId : ℕ) :
    List Point × List ℕ :=
  if incoming.isEmpty || selection.isEmpty then (points, selection)
  else
    match findSelectionBounds points selection with
    | none => (points, selection)
    | some (first, _last) =>
      let anchorX := (points.getD first default).x
      let minIncomingX := match incoming with
        | [] => 0
        | q :: rest => minXFoldP rest q.x
      let maxIncomingX := match incoming with
        | [] => 0
        | q :: rest => maxXFoldP rest q.x
      let shiftX := anchorX - minIncomingX
      let spanStart := anchorX
      let spanEnd := anchorX + (maxIncomingX - minIncomingX)
      let newPoints := incoming.enum.map fun kp =>
        (⟨nextId + kp.1, clampValue (kp.2.x + shiftX) domainX, clampValue kp.2.y domainY⟩ : Point)
      let left := points.filter fun p => decide (p.x < spanStart)
      let right := points.filter fun p => decide (spanEnd < p.x)
      (left ++ newPoints ++ right, newPoints.map Point.id)

/-- src/utils/monotone.ts `sign`: note `sign 0 = 1`. -/
def jsSign (x : ℚ) : ℚ := if x < 0 then -1 else 1

/-- src/utils/monotone.ts `slope3` (Steffen monotone tangent), with the
carried state fields as explicit previous coordinates.  The JS `h || ±0`
divisor fallback only fires for coincident x, which division by zero
already totalizes over ℚ, and the trailing `|| 0` maps NaN to 0, which has
no ℚ counterpart to map. -/
def slope3 (x0 y0 x1 y1 x2 y2 : ℚ) : ℚ :=
  let h0 := x1 - x0
  let h1 := x2 - x1
  let s0 := (y1 - y0) / h0
  let s1 := (y2 - y1) / h1
  let p := (s0 * h1 + s1 * h0) / (h0 + h1)
  (jsSign s0 + jsSign s1) * min (min |s0| |s1|) (|p| / 2)

/-- The x-ascending (non-strict) sort invariant on a point array. -/
def sortedByX (ps : List Point) : Prop := List.Chain' (· ≤ ·) (ps.map Point.x)

instance (ps : List Point) : Decidable (sortedByX ps) := by
  unfold sortedByX; infer_instance

/-! ### General lemmas about the embedding -/

theorem length_filter_enumFrom {α : Type} (P : α → Bool) :
    ∀ (n : ℕ) (l : List α),
      ((List.enumFrom n l).filter fun ip => P ip.2).length = (l.filter P).length := by
  intro n l
  induction l generalizing n with
  | nil => simp
  | cons a t ih =>
    simp only [List.enumFrom, List.filter_cons]
    cases h : P a <;> simp [h, ih]

theorem selectedIndices_length (pts : List Point) (sel : List ℕ) :
    (selectedIndices pts sel).length = (pts.filter fun p => sel.contains p.id).length := by
  unfold selectedIndices List.enum
  rw [List.length_map]
  exact length_filter_enumFrom (fun p => sel.contains p.id) 0 pts

theorem mem_enumFrom_getD {α : Type} [Inhabited α] :
    ∀ (l : List α) (n : ℕ) (x : ℕ × α), x ∈ List.enumFrom n l →
      n ≤ x.1 ∧ x.1 - n < l.length ∧ l.getD (x.1 - n) default = x.2 := by
  intro l
  induction l with
  | nil => intro n x hx; simp [List.enumFrom] at hx
  | cons a t ih =>
    intro n x hx
    simp only [List.enumFrom, List.mem_cons] at hx
    rcases hx with h | h
    · subst h; simp
    · obtain ⟨h1, h2, h3⟩ := ih (n + 1) x h
      refine ⟨by omega, by simp only [List.length_cons]; omega, ?_⟩
      have hx1 : x.1 - n = (x.1 - (n + 1)) + 1 := by omega
      rw [hx1, List.getD_cons_succ]
      exact h3

theorem contains_eq_decide_mem (sel : List ℕ) (i : ℕ) :
    sel.contains i = decide (i ∈ sel) := by
  simp [List.contains]

theorem minXFold_le_init : ∀ (l : List Point) (a : ℚ), minXFold l a ≤ a := by
  intro l
  induction l with
  | nil => intro a; simp [minXFold]
  | cons q t ih =>
    intro a
    have h := ih (min a q.x)
    calc minXFold (q :: t) a = minXFold t (min a q.x) := rfl
      _ ≤ min a q.x := h
      _ ≤ a := min_le_left _ _

theorem minXFold_le_mem : ∀ (l : List Point) (a : ℚ) (p : Point), p ∈ l → minXFold l a ≤ p.x := by
  intro l
  induction l with
  | nil => intro a p hp; simp at hp
  | cons q t ih =>
    intro a p hp
    rcases List.mem_cons.mp hp with h | h
    · subst h
      calc minXFold (p :: t) a = minXFold t (min a p.x) := rfl
        _ ≤ min a p.x := minXFold_le_init t _
        _ ≤ p.x := min_le_right _ _
    · exact ih (min a q.x) p h

theorem init_le_maxXFold : ∀ (l : List Point) (a : ℚ), a ≤ maxXFold l a := by
  intro l
  induction l with
  | nil => intro a; simp [maxXFold]
  | cons q t ih =>
    intro a
    calc a ≤ max a q.x := le_max_left _ _
      _ ≤ maxXFold t (max a q.x) := ih _
      _ = maxXFold (q :: t) a := rfl

theorem mem_le_maxXFold : ∀ (l : List Point) (a : ℚ) (p : Point), p ∈ l → p.x ≤ maxXFold l a := by
  intro l
  induction l with
  | nil => intro a p hp; simp at hp
  | cons q t ih =>
    intro a p hp
    rcases List.mem_cons.mp hp with h | h
    · subst h
      calc p.x ≤ max a p.x := le_max_right _ _
        _ ≤ maxXFold t (max a p.x) := init_le_maxXFold t _
        _ = maxXFold (p :: t) a := rfl
    · exact ih (max a q.x) p h

/-! ### C3 — Scenario A -/

/-- Counterexample to C3: on points (0,0),(10,5) with both selected,
`duplicateSelectionRight` does not return three points with a singleton
selection — the copy of (0,0) lands at (10,0), which differs from the
anchor (10,5) in y and therefore survives the coincidence filter. -/
theorem scenario_a_cex :
    (duplicateSelectionRight [⟨1,0,0⟩, ⟨2,10,5⟩] [1,2] 3).1.length ≠ 3 ∧
    (⟨3,10,0⟩ : Point) ∈ (duplicateSelectionRight [⟨1,0,0⟩, ⟨2,10,5⟩] [1,2] 3).1 ∧
    (duplicateSelectionRight [⟨1,0,0⟩, ⟨2,10,5⟩] [1,2] 3).2.length ≠ 1 := by
  norm_num [duplicateSelectionRight, findSelectionBounds, selectedIndices,
    filterRightOutsideSpan, List.enum, List.enumFrom]

/-- C3 (amended): on points (0,0),(10,5) with both selected,
`duplicateSelectionRight` returns the four points (0,0),(10,5),(10,0),(20,5)
— the shifted copy of (0,0) is (10,0), which does not coincide with the
anchor (10,5), so nothing is filtered — and selects both new ids. -/
theorem scenario_a_amended :
    duplicateSelectionRight [⟨1,0,0⟩, ⟨2,10,5⟩] [1,2] 3 =
      ([⟨1,0,0⟩, ⟨2,10,5⟩, ⟨3,10,0⟩, ⟨4,20,5⟩], [3, 4]) := by
  norm_num [duplicateSelectionRight, findSelectionBounds, selectedIndices,
    filterRightOutsideSpan, List.enum, List.enumFrom]

/-! ### C4 — snapValue definition -/

/-- Counterexample to C4: a negative precision does not leave the value
unchanged — `!precision` only guards zero, so `snapValue 2.3 true (-0.5)`
snaps to 2.5. -/
theorem snap_negative_precision_cex :
    snapValue (23/10) true (-(1/2)) = 5/2 ∧ ¬((5/2 : ℚ) = 23/10) := by
  norm_num [snapValue, jsRound]

/-- C4 (amended): `snapValue` returns the value unchanged when disabled or
when the precision is zero (the only non-finite-like guard expressible
over ℚ), and otherwise — including for negative precision — returns
`round(value / precision) * precision`; the three scenario values hold. -/
theorem snap_definition_amended (v p : ℚ) (hp : p ≠ 0) :
    snapValue v false p = v ∧
    snapValue v true 0 = v ∧
    snapValue v true p = (jsRound (v / p) : ℚ) * p ∧
    snapValue (23/10) true (1/2) = 5/2 ∧
    snapValue (23/10) false (1/2) = 23/10 ∧
    snapValue (23/10) true 0 = 23/10 :=
  ⟨snapValue_false v p, snapValue_zero v, snapValue_pos v p hp,
   by norm_num [snapValue, jsRound], by norm_num [snapValue], by norm_num [snapValue]⟩

/-- Witness for `snap_definition_amended` at v = 2.3, p = 0.5. -/
theorem snap_definition_amended_witness :
    ((1/2 : ℚ) ≠ 0) ∧
    snapValue (23/10) true (1/2) = (jsRound ((23/10) / (1/2)) : ℚ) * (1/2) :=
  ⟨by norm_num, (snap_definition_amended (23/10) (1/2) (by norm_num)).2.2.1⟩

/-! ### C2 — sort invariant -/

/-- Counterexample to C2: `flipSelectionX` maps in place and does not
re-sort, so flipping a sorted two-point selection returns an array that is
no longer x-ascending. -/
theorem flipX_unsorted_cex :
    sortedByX [⟨1,0,0⟩, ⟨2,10,0⟩] ∧
    flipSelectionX [⟨1,0,0⟩, ⟨2,10,0⟩] [1,2] ((-100 : ℚ), 100) false 1 =
      [⟨1,10,0⟩, ⟨2,0,0⟩] ∧
    ¬ sortedByX (flipSelectionX [⟨1,0,0⟩, ⟨2,10,0⟩] [1,2] ((-100 : ℚ), 100) false 1) := by
  norm_num [sortedByX, flipSelectionX, minXFold, maxXFold, snapValue, clampValue,
    List.chain'_cons]

/-! ### C1 — domain containment -/

/-- Counterexample to C1: `duplicateSelectionRight` takes no domain and
never clamps — starting from points inside domainX = [0,15] and
domainY = [0,5], the duplicate at x = 20 lies outside domainX. -/
theorem duplicate_escapes_domain_cex :
    sortedByX [⟨1,0,0⟩, ⟨2,10,5⟩] ∧
    (([⟨1,0,0⟩, ⟨2,10,5⟩] : List Point).all fun p =>
      decide (0 ≤ p.x) && decide (p.x ≤ 15) && decide (0 ≤ p.y) && decide (p.y ≤ 5)) = true ∧
    (⟨4,20,5⟩ : Point) ∈ (duplicateSelectionRight [⟨1,0,0⟩, ⟨2,10,5⟩] [1,2] 3).1 ∧
    ¬((20 : ℚ) ≤ 15) := by
  norm_num [sortedByX, List.chain'_cons, duplicateSelectionRight, findSelectionBounds,
    selectedIndices, filterRightOutsideSpan, List.enum, List.enumFrom, List.all_cons]

/-! ### C7 — minimum point count -/

/-- Counterexample to C7: `removePoint` itself has no minimum-count guard —
on a two-point array with a present id it returns a one-point array — and
`handleDeleteSelection` can even empty the array. -/
theorem remove_below_min_cex :
    removePoint [⟨1,0,0⟩, ⟨2,1,1⟩] 1 = [⟨2,1,1⟩] ∧
    (removePoint [⟨1,0,0⟩, ⟨2,1,1⟩] 1).length = 1 ∧
    handleDeleteSelection [⟨1,0,0⟩, ⟨2,1,1⟩] [1,2] = [] := by
  norm_num [removePoint, handleDeleteSelection]

/-! ### C8 — monotone tangent sign rule -/

/-- C8: for an interior point of a strictly x-increasing triple, whenever
the two adjacent secant slopes differ in sign or either one is zero, the
`slope3` tangent is exactly zero (a zero slope zeroes the minimum term, and
opposite signs cancel in `sign s0 + sign s1`). -/
theorem slope3_sign_rule (x0 y0 x1 y1 x2 y2 : ℚ) (h01 : x0 < x1) (h12 : x1 < x2)
    (hcase : (y1 - y0) / (x1 - x0) = 0 ∨ (y2 - y1) / (x2 - x1) = 0 ∨
      ((y1 - y0) / (x1 - x0) < 0 ∧ 0 < (y2 - y1) / (x2 - x1)) ∨
      ((y2 - y1) / (x2 - x1) < 0 ∧ 0 < (y1 - y0) / (x1 - x0))) :
    slope3 x0 y0 x1 y1 x2 y2 = 0 := by
  have key : ∀ s0 s1 q : ℚ,
      (s0 = 0 ∨ s1 = 0 ∨ (s0 < 0 ∧ 0 < s1) ∨ (s1 < 0 ∧ 0 < s0)) →
      (jsSign s0 + jsSign s1) * min (min |s0| |s1|) (|q| / 2) = 0 := by
    intro s0 s1 q hc
    rcases hc with h | h | ⟨hn, hp⟩ | ⟨hn, hp⟩
    · rw [h, abs_zero, min_eq_left (abs_nonneg s1),
        min_eq_left (div_nonneg (abs_nonneg q) (by norm_num)), mul_zero]
    · rw [h, abs_zero, min_eq_right (abs_nonneg s0),
        min_eq_left (div_nonneg (abs_nonneg q) (by norm_num)), mul_zero]
    · have e0 : jsSign s0 = -1 := if_pos hn
      have e1 : jsSign s1 = 1 := if_neg (not_lt.mpr hp.le)
      rw [e0, e1, neg_add_cancel, zero_mul]
    · have e0 : jsSign s0 = 1 := if_neg (not_lt.mpr hp.le)
      have e1 : jsSign s1 = -1 := if_pos hn
      rw [e0, e1, add_neg_cancel, zero_mul]
  simp only [slope3]
  exact key _ _ _ hcase

/-- Witness for `slope3_sign_rule`: secants 1 and −1 around the peak of
(0,0),(1,1),(2,0) give a zero tangent. -/
theorem slope3_sign_rule_witness :
    ((0 : ℚ) < 1 ∧ (1 : ℚ) < 2) ∧ slope3 0 0 1 1 2 0 = 0 :=
  ⟨⟨by norm_num, by norm_num⟩,
   slope3_sign_rule 0 0 1 1 2 0 (by norm_num) (by norm_num)
     (Or.inr (Or.inr (Or.inr ⟨by norm_num, by norm_num⟩)))⟩

/-! ### C5 — flipY pointwise definition -/

/-- Counterexample to C5: the code snaps after clamping, not before — for
y = −5, domainY = [−5, 9/2], precision 3, the code returns
snap(clamp(5)) = snap(9/2) = 6, while the claimed snap-then-clamp order
would return clamp(snap(5)) = clamp(6) = 9/2. -/
theorem flipY_clamp_snap_order_cex :
    flipSelectionY [⟨1,0,-5⟩] [1] ((-5 : ℚ), 9/2) true 3 = [⟨1,0,6⟩] ∧
    clampValue (snapValue (-(-5 : ℚ)) true 3) ((-5 : ℚ), 9/2) = 9/2 ∧
    ¬((6 : ℚ) = 9/2) := by
  norm_num [flipSelectionY, snapValue, clampValue, jsRound]

/-- C5 (amended): `flipSelectionY` rewrites each selected point's y to
`snapValue(clampValue(-y, domainY))` — clamping first, then snapping — and
returns every unselected point unchanged in its original position;
Scenario B holds with the middle point flipped to y = −2. -/
theorem flipY_pointwise_amended (pts : List Point) (sel : List ℕ) (domY : ℚ × ℚ)
    (e : Bool) (prec : ℚ) :
    List.Forall₂ (fun p q =>
        q = if sel.contains p.id
            then { p with y := snapValue (clampValue (-p.y) domY) e prec }
            else p) pts (flipSelectionY pts sel domY e prec) ∧
    flipSelectionY [⟨1,-10,1⟩, ⟨2,0,2⟩, ⟨3,10,1⟩] [2] ((-5 : ℚ), 5) false 1 =
      [⟨1,-10,1⟩, ⟨2,0,-2⟩, ⟨3,10,1⟩] := by
  constructor
  · induction pts with
    | nil => simp [flipSelectionY]
    | cons a t ih =>
      simp only [flipSelectionY, List.map_cons] at ih ⊢
      refine List.Forall₂.cons ?_ ih
      cases h : sel.contains a.id <;> simp [h]
  · norm_num [flipSelectionY, snapValue, clampValue]

/-! ### C2 (amended) — what of the sort invariant holds -/

/-- C2 (amended): `flipSelectionY` leaves the x-sequence unchanged and so
preserves x-sortedness, and `flipSelectionX` keeps every point in its
original position (same id sequence) — it performs no re-sort, so after
flipping a selection of distinct x-values the array is not x-ascending
(see the counterexample); consumers re-sort before use. -/
theorem sort_invariant_amended (pts : List Point) (sel : List ℕ)
    (domX domY : ℚ × ℚ) (e : Bool) (precX precY : ℚ) :
    (flipSelectionY pts sel domY e precY).map Point.x = pts.map Point.x ∧
    (sortedByX pts → sortedByX (flipSelectionY pts sel domY e precY)) ∧
    (flipSelectionX pts sel domX e precX).map Point.id = pts.map Point.id := by
  have h1 : (flipSelectionY pts sel domY e precY).map Point.x = pts.map Point.x := by
    simp only [flipSelectionY, List.map_map]
    refine List.map_congr_left ?_
    intro p _
    by_cases h : p.id ∈ sel <;> simp [h]
  refine ⟨h1, ?_, ?_⟩
  · intro hs
    unfold sortedByX at hs ⊢
    rw [h1]
    exact hs
  · cases hf : pts.filter (fun p => sel.contains p.id) with
    | nil =>
      simp only [flipSelectionX]
      rw [hf]
    | cons s rest =>
      simp only [flipSelectionX]
      rw [hf]
      simp only [List.map_map]
      refine List.map_congr_left ?_
      intro p _
      by_cases h : p.id ∈ sel <;> simp [h]

/-- Witness for `sort_invariant_amended`: a sorted two-point array stays
sorted under `flipSelectionY`. -/
theorem sort_invariant_amended_witness :
    sortedByX [⟨1,0,0⟩, ⟨2,1,1⟩] ∧
    sortedByX (flipSelectionY [⟨1,0,0⟩, ⟨2,1,1⟩] [1] ((-5 : ℚ), 5) false 1) :=
  ⟨by norm_num [sortedByX, List.chain'_cons],
   (sort_invariant_amended [⟨1,0,0⟩, ⟨2,1,1⟩] [1] ((0 : ℚ), 1) ((-5 : ℚ), 5) false 1 1).2.1
     (by norm_num [sortedByX, List.chain'_cons])⟩

/-! ### C9 — under-sized selections are silent no-ops -/

/-- C9: with fewer than two selected points present, `mirrorSelection`
(either direction) and `trimToSelection` return the input unchanged, and
`replaceSelectionWithPoints` with an empty selection or empty incoming
list returns the input points and the existing selection unchanged. -/
theorem undersized_noop (pts : List Point) (sel : List ℕ) (incoming : List PlainPoint)
    (domX domY : ℚ × ℚ) (nid : ℕ) :
    ((pts.filter fun p => sel.contains p.id).length < 2 →
      mirrorSelection pts sel nid .right = (pts, sel) ∧
      mirrorSelection pts sel nid .left = (pts, sel) ∧
      trimToSelection pts sel = pts) ∧
    (sel = [] ∨ incoming = [] →
      replaceSelectionWithPoints pts sel incoming domX domY nid = (pts, sel)) := by
  constructor
  · intro h
    have hsi : (selectedIndices pts sel).length < 2 := by
      rw [selectedIndices_length]
      exact h
    have hb : ∀ d, mirrorSelection pts sel nid d = (pts, sel) := by
      intro d
      cases hsel : selectedIndices pts sel with
      | nil => simp [mirrorSelection, findSelectionBounds, hsel]
      | cons i rest =>
        cases rest with
        | nil => simp [mirrorSelection, findSelectionBounds, hsel]
        | cons j t =>
          rw [hsel] at hsi
          simp at hsi
          omega
    refine ⟨hb .right, hb .left, ?_⟩
    simp only [trimToSelection]
    rw [if_pos h]
  · intro h
    have hg : incoming.isEmpty || sel.isEmpty := by
      rcases h with h | h <;> simp [h]
    simp [replaceSelectionWithPoints, hg]

/-- Witness for `undersized_noop`: a single selected point on a two-point
array leaves mirroring a no-op, and an empty incoming list leaves pasting
a no-op. -/
theorem undersized_noop_witness :
    (([⟨1,0,0⟩, ⟨2,1,1⟩] : List Point).filter fun p => ([1] : List ℕ).contains p.id).length < 2 ∧
    mirrorSelection [⟨1,0,0⟩, ⟨2,1,1⟩] [1] 7 .right = ([⟨1,0,0⟩, ⟨2,1,1⟩], [1]) ∧
    (([1] : List ℕ) = [] ∨ ([] : List PlainPoint) = []) ∧
    replaceSelectionWithPoints [⟨1,0,0⟩, ⟨2,1,1⟩] [1] [] ((0 : ℚ), 1) ((0 : ℚ), 1) 7 =
      ([⟨1,0,0⟩, ⟨2,1,1⟩], [1]) := by
  refine ⟨by decide, ?_, Or.inr rfl, ?_⟩
  · exact ((undersized_noop [⟨1,0,0⟩, ⟨2,1,1⟩] [1] [] ((0 : ℚ), 1) ((0 : ℚ), 1) 7).1
      (by decide)).1
  · exact (undersized_noop [⟨1,0,0⟩, ⟨2,1,1⟩] [1] [] ((0 : ℚ), 1) ((0 : ℚ), 1) 7).2
      (Or.inr rfl)

/-! ### C1 (amended) — where domain containment actually holds -/

/-- C1 (amended): with snapping disabled, `flipSelectionY` and
`flipSelectionX` clamp every affected coordinate into its domain, and
`replaceSelectionWithPoints` clamps every newly created point into both
domains (every output point is an input point or lies in-domain);
`mirrorSelection` and the duplicate operations take no domain and do not
clamp, so their new points can leave the domain (see the counterexample),
and with snapping enabled the flips can snap past the domain edge. -/
theorem domain_containment_amended (pts : List Point) (sel : List ℕ)
    (domX domY : ℚ × ℚ) (precX precY : ℚ) (incoming : List PlainPoint) (nid : ℕ)
    (hx : domX.1 ≤ domX.2) (hy : domY.1 ≤ domY.2) :
    (∀ p ∈ flipSelectionY pts sel domY false precY, p.id ∈ sel →
        domY.1 ≤ p.y ∧ p.y ≤ domY.2) ∧
    (∀ p ∈ flipSelectionX pts sel domX false precX, p.id ∈ sel →
        domX.1 ≤ p.x ∧ p.x ≤ domX.2) ∧
    (∀ p ∈ (replaceSelectionWithPoints pts sel incoming domX domY nid).1,
        p ∈ pts ∨ (domX.1 ≤ p.x ∧ p.x ≤ domX.2 ∧ domY.1 ≤ p.y ∧ p.y ≤ domY.2)) := by
  refine ⟨?_, ?_, ?_⟩
  · simp only [flipSelectionY]
    intro p hp hid
    simp only [List.mem_map] at hp
    obtain ⟨q, hq, rfl⟩ := hp
    cases hc : sel.contains q.id with
    | false =>
      exfalso
      have hnot : q.id ∉ sel := by simpa [contains_eq_decide_mem] using hc
      rw [hc] at hid
      simp only [Bool.not_false, if_true] at hid
      exact hnot hid
    | true =>
      simpa [snapValue_false] using clampValue_mem (-q.y) domY hy
  · cases hf : pts.filter (fun p => sel.contains p.id) with
    | nil =>
      simp only [flipSelectionX]
      rw [hf]
      intro p hp hid
      exfalso
      have : p ∈ pts.filter (fun p => sel.contains p.id) := by
        refine List.mem_filter.mpr ⟨hp, ?_⟩
        simpa [contains_eq_decide_mem] using hid
      rw [hf] at this
      simp at this
    | cons s rest =>
      simp only [flipSelectionX]
      rw [hf]
      intro p hp hid
      simp only [List.mem_map] at hp
      obtain ⟨q, hq, rfl⟩ := hp
      cases hc : sel.contains q.id with
      | false =>
        exfalso
        have hnot : q.id ∉ sel := by simpa [contains_eq_decide_mem] using hc
        rw [hc] at hid
        simp only [Bool.not_false, if_true] at hid
        exact hnot hid
      | true =>
        simpa [snapValue_false] using
          clampValue_mem (maxXFold rest s.x - (q.x - minXFold rest s.x)) domX hx
  · intro p hp
    unfold replaceSelectionWithPoints at hp
    by_cases hg : incoming.isEmpty || sel.isEmpty
    · rw [if_pos hg] at hp
      exact Or.inl hp
    · rw [if_neg hg] at hp
      rcases hfb : findSelectionBounds pts sel with _ | ⟨first, last⟩
      · rw [hfb] at hp
        exact Or.inl hp
      · rw [hfb] at hp
        simp only [List.mem_append] at hp
        rcases hp with (h | h) | h
        · exact Or.inl (List.mem_of_mem_filter h)
        · simp only [List.mem_map] at h
          obtain ⟨kp, _, rfl⟩ := h
          exact Or.inr ⟨(clampValue_mem _ _ hx).1, (clampValue_mem _ _ hx).2,
            (clampValue_mem _ _ hy).1, (clampValue_mem _ _ hy).2⟩
        · exact Or.inl (List.mem_of_mem_filter h)

/-- Witness for `domain_containment_amended`: flipping y = 2 in
domainY = [−5, 5] lands the selected point at y = −2, inside the domain. -/
theorem domain_containment_amended_witness :
    ((0 : ℚ) ≤ 1 ∧ (-5 : ℚ) ≤ 5) ∧
    (⟨1, 0, -2⟩ : Point) ∈ flipSelectionY [⟨1,0,2⟩] [1] ((-5 : ℚ), 5) false 1 ∧
    ((-5 : ℚ) ≤ (Point.mk 1 0 (-2)).y ∧ (Point.mk 1 0 (-2)).y ≤ 5) := by
  have hmem : (⟨1, 0, -2⟩ : Point) ∈ flipSelectionY [⟨1,0,2⟩] [1] ((-5 : ℚ), 5) false 1 := by
    norm_num [flipSelectionY, snapValue, clampValue]
  refine ⟨⟨by norm_num, by norm_num⟩, hmem, ?_⟩
  exact (domain_containment_amended [⟨1,0,2⟩] [1] ((0 : ℚ), 1) ((-5 : ℚ), 5) 1 1 [] 0
    (by norm_num) (by norm_num)).1 ⟨1, 0, -2⟩ hmem (by norm_num)

/-! ### C6 — mirror reflection -/

theorem mirrorSelection_eq_of_bounds (pts : List Point) (sel : List ℕ)
    (nid first last : ℕ) (d : MirrorDirection)
    (hb : findSelectionBounds pts sel = some (first, last))
    (h2 : ¬ (last - first + 1 < 2)) :
    mirrorSelection pts sel nid d =
      match d with
      | .right =>
        (pts.take (last + 1) ++ mirroredOf pts first last nid .right ++
          filterRightOutsideSpan (pts.drop (last + 1))
            ((mirrorAnchor pts first last .right).x +
              ((pts.getD last default).x - (pts.getD first default).x)),
         (mirrorAnchor pts first last .right).id ::
           (mirroredOf pts first last nid .right).map Point.id)
      | .left =>
        (filterLeftOutsideSpan (pts.take first)
            ((mirrorAnchor pts first last .left).x -
              ((pts.getD last default).x - (pts.getD first default).x)) ++
          mirroredOf pts first last nid .left ++ pts.drop first,
         (mirrorAnchor pts first last .left).id ::
           (mirroredOf pts first last nid .left).map Point.id) := by
  unfold mirrorSelection
  rw [hb]
  dsimp only
  rw [if_neg h2]
  cases d <;> rfl

/-- Counterexample to C6: a non-contiguous selection of k = 2 points (the
outer two of three) mirrors the whole index span, producing 2 new points
instead of k − 1 = 1. -/
theorem mirror_count_cex :
    sortedByX [⟨1,0,0⟩, ⟨2,1,7⟩, ⟨3,2,0⟩] ∧
    (([⟨1,0,0⟩, ⟨2,1,7⟩, ⟨3,2,0⟩] : List Point).filter fun p =>
      ([1,3] : List ℕ).contains p.id).length = 2 ∧
    mirrorSelection [⟨1,0,0⟩, ⟨2,1,7⟩, ⟨3,2,0⟩] [1,3] 4 .right =
      ([⟨1,0,0⟩, ⟨2,1,7⟩, ⟨3,2,0⟩, ⟨4,3,7⟩, ⟨5,4,0⟩], [3, 4, 5]) ∧
    (mirrorSelection [⟨1,0,0⟩, ⟨2,1,7⟩, ⟨3,2,0⟩] [1,3] 4 .right).1.length ≠ 3 + (2 - 1) := by
  norm_num [sortedByX, List.chain'_cons, mirrorSelection, findSelectionBounds,
    selectedIndices, mirroredOf, mirrorAnchor, mirrorAnchorIdx, mirrorSrcIdx,
    filterRightOutsideSpan, List.enum, List.enumFrom, List.range_succ]

/-- C6 (amended): for a selection whose present ids span indices
[first, last] with first < last, `mirrorSelection` produces exactly
last − first new points — one per index in the span, selected or not, so
k − 1 exactly when the selection is a contiguous run of k points — where
the k-th new point has a fresh id `nid + k`, `newX = 2·anchorX − srcX` and
`newY = srcY`; the returned selection is the anchor id followed by the new
ids, and every new point appears in the returned array. -/
theorem mirror_reflection_amended (pts : List Point) (sel : List ℕ)
    (nid first last : ℕ) (d : MirrorDirection)
    (hb : findSelectionBounds pts sel = some (first, last)) (hfl : first < last) :
    (mirroredOf pts first last nid d).length = last - first ∧
    (∀ k, k < last - first →
      (mirroredOf pts first last nid d).getD k default =
        ⟨nid + k,
         2 * (mirrorAnchor pts first last d).x -
           (pts.getD (mirrorSrcIdx first last d k) default).x,
         (pts.getD (mirrorSrcIdx first last d k) default).y⟩) ∧
    (mirrorSelection pts sel nid d).2 =
      (mirrorAnchor pts first last d).id ::
        (mirroredOf pts first last nid d).map Point.id ∧
    (∀ q ∈ mirroredOf pts first last nid d, q ∈ (mirrorSelection pts sel nid d).1) := by
  have hguard : ¬ (last - first + 1 < 2) := by omega
  have heq := mirrorSelection_eq_of_bounds pts sel nid first last d hb hguard
  refine ⟨by simp [mirroredOf], ?_, ?_, ?_⟩
  · intro k hk
    have hlen : (mirroredOf pts first last nid d).length = last - first := by
      simp [mirroredOf]
    rw [List.getD_eq_getElem _ _ (by rw [hlen]; exact hk)]
    simp only [mirroredOf, List.getElem_map, List.getElem_range]
    simp only [Point.mk.injEq]
    refine ⟨?_, by ring, ?_⟩ <;> trivial
  · rw [heq]
    cases d <;> rfl
  · intro q hq
    rw [heq]
    cases d with
    | right =>
      exact List.mem_append_left _ (List.mem_append_right _ hq)
    | left =>
      exact List.mem_append_left _ (List.mem_append_right _ hq)

/-- Witness for `mirror_reflection_amended`: a contiguous selection of the
last two of three points has bounds (1,2) and mirrors to 2 − 1 = 1 new
point. -/
theorem mirror_reflection_amended_witness :
    (findSelectionBounds [⟨1,0,0⟩, ⟨2,1,7⟩, ⟨3,2,0⟩] [2,3] = some (1, 2) ∧ 1 < 2) ∧
    (mirroredOf [⟨1,0,0⟩, ⟨2,1,7⟩, ⟨3,2,0⟩] 1 2 9 .right).length = 2 - 1 :=
  ⟨⟨by decide, by decide⟩,
   (mirror_reflection_amended [⟨1,0,0⟩, ⟨2,1,7⟩, ⟨3,2,0⟩] [2,3] 9 1 2 .right
     (by decide) (by decide)).1⟩

/-! ### C7 (amended) - where the minimum point count holds -/

theorem countP_beq_le_one (pts : List Point) (i : ℕ)
    (hnd : (pts.map Point.id).Nodup) :
    pts.countP (fun p => p.id == i) ≤ 1 := by
  induction pts with
  | nil => simp
  | cons a t ih =>
    simp only [List.map_cons, List.nodup_cons] at hnd
    obtain ⟨hna, hnt⟩ := hnd
    rw [List.countP_cons]
    by_cases h : a.id = i
    · have hz : t.countP (fun p => p.id == i) = 0 := by
        rw [List.countP_eq_zero]
        intro q hq hqi
        apply hna
        have hqe : q.id = i := by simpa using hqi
        rw [h, ← hqe]
        exact List.mem_map_of_mem Point.id hq
      simp [h, hz]
    · simp [h, ih hnt]

theorem filter_ne_length_ge : ∀ (pts : List Point) (i : ℕ),
    pts.length ≤ (pts.filter fun p => p.id != i).length + pts.countP (fun p => p.id == i) := by
  intro pts i
  induction pts with
  | nil => simp
  | cons a t ih =>
    rw [List.countP_cons, List.filter_cons]
    by_cases h : a.id = i
    · have hb : (a.id != i) = false := by simp [h]
      have hb2 : (a.id == i) = true := by simp [h]
      rw [hb, hb2]
      simp only [Bool.false_eq_true, if_false, if_true, List.length_cons]
      omega
    · have hb : (a.id != i) = true := by simp [h]
      have hb2 : (a.id == i) = false := by simp [h]
      rw [hb, hb2]
      simp only [Bool.false_eq_true, if_false, if_true, List.length_cons]
      omega

theorem removePoint_length_ge (pts : List Point) (i : ℕ)
    (hnd : (pts.map Point.id).Nodup) :
    pts.length - 1 ≤ (removePoint pts i).length := by
  unfold removePoint
  by_cases h : (pts.filter fun p => p.id != i).length = pts.length
  · rw [if_pos h]
    omega
  · rw [if_neg h]
    have hc := countP_beq_le_one pts i hnd
    have hf := filter_ne_length_ge pts i
    omega

theorem trim_length_ge (pts : List Point) (sel : List ℕ) (h2 : 2 ≤ pts.length) :
    2 ≤ (trimToSelection pts sel).length := by
  unfold trimToSelection
  by_cases hlt : (pts.filter fun p => sel.contains p.id).length < 2
  · rw [if_pos hlt]
    exact h2
  · rw [if_neg hlt]
    cases hsel : pts.filter (fun p => sel.contains p.id) with
    | nil =>
      rw [hsel] at hlt
      simp at hlt
    | cons s rest =>
      dsimp only
      have hall : ∀ a ∈ s :: rest,
          (decide (minXFold rest s.x ≤ a.x) && decide (a.x ≤ maxXFold rest s.x)) = true := by
        intro a ha
        rcases List.mem_cons.mp ha with h | h
        · subst h
          simp [minXFold_le_init rest a.x, init_le_maxXFold rest a.x]
        · simp [minXFold_le_mem rest s.x a h, mem_le_maxXFold rest s.x a h]
      have e1 : (s :: rest).filter
          (fun p => decide (minXFold rest s.x ≤ p.x) && decide (p.x ≤ maxXFold rest s.x)) =
          s :: rest := List.filter_eq_self.mpr hall
      have hcomm : (fun p : Point =>
            (decide (minXFold rest s.x ≤ p.x) && decide (p.x ≤ maxXFold rest s.x)) &&
              sel.contains p.id) =
          (fun p : Point => sel.contains p.id &&
            (decide (minXFold rest s.x ≤ p.x) && decide (p.x ≤ maxXFold rest s.x))) := by
        funext a
        exact Bool.and_comm _ _
      have hchain : (s :: rest).length ≤
          (pts.filter fun p =>
            decide (minXFold rest s.x ≤ p.x) && decide (p.x ≤ maxXFold rest s.x)).length := by
        calc (s :: rest).length
            = ((s :: rest).filter (fun p =>
                decide (minXFold rest s.x ≤ p.x) && decide (p.x ≤ maxXFold rest s.x))).length := by
              rw [e1]
          _ = ((pts.filter (fun p => sel.contains p.id)).filter (fun p =>
                decide (minXFold rest s.x ≤ p.x) && decide (p.x ≤ maxXFold rest s.x))).length := by
              rw [hsel]
          _ = (pts.filter (fun p =>
                (decide (minXFold rest s.x ≤ p.x) && decide (p.x ≤ maxXFold rest s.x)) &&
                  sel.contains p.id)).length := by
              rw [List.filter_filter]
          _ = (pts.filter (fun p => sel.contains p.id &&
                (decide (minXFold rest s.x ≤ p.x) && decide (p.x ≤ maxXFold rest s.x)))).length := by
              rw [hcomm]
          _ = ((pts.filter (fun p =>
                decide (minXFold rest s.x ≤ p.x) && decide (p.x ≤ maxXFold rest s.x))).filter
                (fun p => sel.contains p.id)).length := by
              rw [List.filter_filter]
          _ ≤ (pts.filter (fun p =>
                decide (minXFold rest s.x ≤ p.x) && decide (p.x ≤ maxXFold rest s.x))).length :=
              List.length_filter_le _ _
      have hge : 2 ≤ (s :: rest).length := by
        rw [hsel] at hlt
        omega
      omega

/-- C7 (amended): `trimToSelection` never drops the
count below 2, and point removal through the double-click handler is
guarded - at exactly 2 points it is a no-op, and (for distinct ids) it
always leaves at least 2 points; the bare `removePoint` and
`handleDeleteSelection` carry no such guard. -/
theorem min_count_amended (pts : List Point) (sel : List ℕ) (i : ℕ)
    (h2 : 2 ≤ pts.length) (hnd : (pts.map Point.id).Nodup) :
    2 ≤ (trimToSelection pts sel).length ∧
    (pts.length = 2 → handleDoubleClickPoint pts i = pts) ∧
    2 ≤ (handleDoubleClickPoint pts i).length := by
  refine ⟨trim_length_ge pts sel h2, ?_, ?_⟩
  · intro hl
    unfold handleDoubleClickPoint
    rw [if_pos (by simp [MIN_POINTS, hl])]
  · unfold handleDoubleClickPoint
    by_cases hle : pts.length ≤ MIN_POINTS
    · rw [if_pos hle]
      exact h2
    · rw [if_neg hle]
      have hr := removePoint_length_ge pts i hnd
      simp only [MIN_POINTS] at hle
      omega

/-- Witness for `min_count_amended`: a two-point array with distinct ids
keeps both points under trim and double-click removal. -/
theorem min_count_amended_witness :
    (2 ≤ ([⟨1,0,0⟩, ⟨2,1,1⟩] : List Point).length ∧
      (([⟨1,0,0⟩, ⟨2,1,1⟩] : List Point).map Point.id).Nodup ∧
      ([⟨1,0,0⟩, ⟨2,1,1⟩] : List Point).length = 2) ∧
    2 ≤ (trimToSelection [⟨1,0,0⟩, ⟨2,1,1⟩] [1]).length ∧
    handleDoubleClickPoint [⟨1,0,0⟩, ⟨2,1,1⟩] 1 = [⟨1,0,0⟩, ⟨2,1,1⟩] := by
  refine ⟨⟨by decide, by decide, by decide⟩, ?_, ?_⟩
  · exact (min_count_amended [⟨1,0,0⟩, ⟨2,1,1⟩] [1] 1 (by decide) (by decide)).1
  · exact (min_count_amended [⟨1,0,0⟩, ⟨2,1,1⟩] [1] 1 (by decide) (by decide)).2.1 (by decide)

/-! ### C10 - duplicating a single-point selection -/

/-- C10: on a strictly x-ascending array with exactly one selected point
present, `duplicateSelectionRight` and `duplicateSelectionLeft` return the
point array unchanged (the span width is 0, so the lone copy coincides
with the anchor and is filtered out) but return an empty selection,
discarding the caller's one-point selection. -/
theorem single_selection_duplicate_noop (pts : List Point) (sel : List ℕ) (nid : ℕ)
    (hsort : List.Pairwise (fun a b => a.x < b.x) pts)
    (hone : (pts.filter fun p => sel.contains p.id).length = 1) :
    duplicateSelectionRight pts sel nid = (pts, []) ∧
    duplicateSelectionLeft pts sel nid = (pts, []) := by
  have hsl : (selectedIndices pts sel).length = 1 := by
    rw [selectedIndices_length]
    exact hone
  obtain ⟨i, hi⟩ := List.length_eq_one.mp hsl
  have hbounds : findSelectionBounds pts sel = some (i, i) := by
    unfold findSelectionBounds
    rw [hi]
    rfl
  obtain ⟨x, hx⟩ := List.length_eq_one.mp (by
    have hlm := congrArg List.length hi
    unfold selectedIndices at hlm
    simpa using hlm :
      ((pts.enum.filter fun ip => sel.contains ip.2.id)).length = 1)
  have hx1 : x.1 = i := by
    have h2 := hi
    unfold selectedIndices at h2
    rw [hx] at h2
    simpa using h2
  have hxmem : x ∈ pts.enum := by
    have : x ∈ pts.enum.filter fun ip => sel.contains ip.2.id := by
      rw [hx]
      exact List.mem_singleton_self x
    exact List.mem_of_mem_filter this
  have hget := mem_enumFrom_getD pts 0 x (by simpa [List.enum] using hxmem)
  have hilen : i < pts.length := by
    have h3 := hget.2.1
    omega
  have hgt : ∀ p ∈ pts.drop (i + 1), (pts.getD i default).x < p.x := by
    intro p hp
    obtain ⟨k, hk, hkp⟩ := List.mem_iff_getElem.mp hp
    rw [List.getElem_drop] at hkp
    have hik : i + 1 + k < pts.length := by
      rw [List.length_drop] at hk
      omega
    have hpair := (List.pairwise_iff_getElem.mp hsort) i (i + 1 + k) hilen hik (by omega)
    rw [List.getD_eq_getElem _ _ hilen, ← hkp]
    exact hpair
  have hlt : ∀ p ∈ pts.take i, p.x < (pts.getD i default).x := by
    intro p hp
    obtain ⟨k, hk, hkp⟩ := List.mem_iff_getElem.mp hp
    rw [List.getElem_take] at hkp
    have hki : k < i := by
      rw [List.length_take] at hk
      omega
    have hpair := (List.pairwise_iff_getElem.mp hsort) k i (by omega) hilen hki
    rw [List.getD_eq_getElem _ _ hilen, ← hkp]
    exact hpair
  have hdrop : pts.drop i = pts.getD i default :: pts.drop (i + 1) := by
    rw [List.getD_eq_getElem _ _ hilen]
    exact List.drop_eq_getElem_cons hilen
  have hone2 : i + 1 - i = 1 := by omega
  constructor
  · unfold duplicateSelectionRight
    rw [hbounds]
    dsimp only
    have htail : filterRightOutsideSpan (pts.drop (i + 1)) (pts.getD i default).x
        = pts.drop (i + 1) := by
      unfold filterRightOutsideSpan
      refine List.filter_eq_self.mpr ?_
      intro p hp
      simpa using hgt p hp
    rw [hone2, hdrop]
    simp [sub_self, List.enum, List.enumFrom]
    have hgd : pts.getD i default = pts[i]?.getD default := by
      simp [List.getD]
    rw [← hgd, htail]
    exact List.take_append_drop (i + 1) pts
  · unfold duplicateSelectionLeft
    rw [hbounds]
    dsimp only
    have hhead : filterLeftOutsideSpan (pts.take i) (pts.getD i default).x
        = pts.take i := by
      unfold filterLeftOutsideSpan
      refine List.filter_eq_self.mpr ?_
      intro p hp
      simpa using hlt p hp
    rw [hone2, hdrop]
    simp [sub_self, sub_zero, List.enum, List.enumFrom]
    have hgd : pts.getD i default = pts[i]?.getD default := by
      simp [List.getD]
    rw [← hgd, hhead, ← hdrop]
    exact List.take_append_drop i pts

/-- Witness for `single_selection_duplicate_noop`: duplicating the single
selected point of a strictly ascending two-point array is a point-level
no-op with an emptied selection. -/
theorem single_selection_duplicate_noop_witness :
    (List.Pairwise (fun a b : Point => a.x < b.x) [⟨1,0,0⟩, ⟨2,1,1⟩] ∧
      (([⟨1,0,0⟩, ⟨2,1,1⟩] : List Point).filter fun p =>
        ([1] : List ℕ).contains p.id).length = 1) ∧
    duplicateSelectionRight [⟨1,0,0⟩, ⟨2,1,1⟩] [1] 7 = ([⟨1,0,0⟩, ⟨2,1,1⟩], []) :=
  ⟨⟨by norm_num [List.pairwise_cons], by decide⟩,
   (single_selection_duplicate_noop [⟨1,0,0⟩, ⟨2,1,1⟩] [1] 7
     (by norm_num [List.pairwise_cons]) (by decide)).1⟩

end AeroCurves
